import Mathlib

/- A shallow embedding of the GraphQL execution core of this repository
   (graphql.go and internal/exec/exec.go), together with theorems checking
   the natural-language specification against it. -/

namespace GqlExec

/-- Field-argument map: models the Go map from argument name to value that is
placed under the arguments context key; argument values are modelled as
strings. -/
abbrev Args := List (String × String)

/-- Response path element: a field alias or a list index, as stored in the
value component of pathSegment (exec.go). -/
inductive PathElem where
  | fieldAlias (s : String)
  | index (n : Nat)
deriving DecidableEq

/-- Immutable linked path from the response root (pathSegment in exec.go):
a parent pointer plus the value of the current segment. -/
inductive PathSegment where
  | nil
  | cons (parent : PathSegment) (value : PathElem)
deriving DecidableEq

/-- Models pathSegment.toSlice: a nil segment gives the empty slice, otherwise
the parent's slice with this segment's value appended. -/
def PathSegment.toSlice : PathSegment → List PathElem
  | .nil => []
  | .cons parent value => parent.toSlice ++ [value]

/-- GraphQL type wrappers as consumed by the executor (the ast types). The
object constructor stands for the three composite kinds (ObjectTypeDefinition,
InterfaceTypeDefinition, Union), which execSelectionSet treats identically. -/
inductive GType where
  | object (name : String)
  | scalar (name : String)
  | enum (name : String) (values : List String)
  | list (ofType : GType)
  | nonNull (ofType : GType)
deriving DecidableEq

/-- Models unwrapNonNull (exec.go): strips one NonNull wrapper and reports
whether one was present. -/
def unwrapNonNull : GType → GType × Bool
  | .nonNull t => (t, true)
  | t => (t, false)

/-- True exactly on a NonNull wrapper: the Go type assertion on ast.NonNull
used at exec.go lines 131 and 381. -/
def isNonNullType : GType → Bool
  | .nonNull _ => true
  | _ => false

/-- String form of a type as it appears inside error messages. -/
def typeString : GType → String
  | .object n => n
  | .scalar n => n
  | .enum n _ => n
  | .list t => "[" ++ typeString t ++ "]"
  | .nonNull t => typeString t ++ "!"

/-- Structured error (errors.QueryError): the message, the response path, the
original resolver error (modelled by its message string) and harvested
extensions. Location data is out of scope of the executor. -/
structure QueryError where
  message : String
  path : List PathElem := []
  resolverError : Option String := none
  extensions : Option Args := none
deriving DecidableEq

/-- Context as seen by the executor and by resolvers: the cancellation state
(the result of ctx.Err()) and the value stored under the arguments context
key, if any key was ever set. -/
structure Ctx where
  err : Option String := none
  arguments : Option Args := none
deriving DecidableEq

/-- Models contextWithArguments (exec.go): context.WithValue under the
arguments key, shadowing any previously stored map. -/
def contextWithArguments (ctx : Ctx) (args : Args) : Ctx :=
  { ctx with arguments := some args }

/-- Outcome of invoking a resolver method: a value, a non-nil error together
with the optional payload of its Extensions() capability, or a panic carrying
the panic value (modelled as a string). -/
inductive ROut (α : Type) where
  | ok (v : α)
  | err (msg : String) (exts : Option Args)
  | panicked (value : String)

/-- Runtime resolver value: the reflect.Value tree the executor walks. nilv
covers nil pointers, nil interfaces and invalid values. scalarJSON carries the
bytes json.Marshal produces for the value. obj carries resolver methods by
field name and type-assertion methods by type name, each assertion yielding
the matched flag and the asserted value (the two results of the Go method
call). listv is a slice value. -/
inductive RValue where
  | nilv
  | scalarJSON (s : String)
  | enumName (s : String)
  | obj (fields : List (String × (Ctx → ROut RValue))) (asserts : List (String × Bool × RValue))
  | listv (elems : List RValue)

/-- Flattened selection (the selected.Selection variants). Modelled from the
spec: the selected package is not among the sources; the three variants and
their fields follow spec section 3 (SchemaField, TypenameField,
TypeAssertion). -/
inductive Selection where
  | field (name aliasName : String) (args : Args) (typ : GType) (async : Bool)
      (fixedResult : Option RValue) (sels : List Selection)
  | typename (aliasName : String) (typeName : String) (assertions : List String)
  | assertion (typeName : String) (sels : List Selection)

/- Modelled from the spec: HasAsyncSel (selected package, not among the
   sources) reports whether any field in the selection tree is marked
   asynchronous. -/
mutual

def HasAsyncSel : List Selection → Bool
  | [] => false
  | sel :: rest => hasAsyncSel1 sel || HasAsyncSel rest

def hasAsyncSel1 : Selection → Bool
  | Selection.field _ _ _ _ async _ subsels => async || HasAsyncSel subsels
  | Selection.typename _ _ _ => false
  | Selection.assertion _ subsels => HasAsyncSel subsels

end

/-- Models fieldToExec (exec.go): the schema field data, the merged
sub-selections and the resolver value the field is bound to. The out buffer
of the Go struct is the string returned by execution in this embedding. -/
structure FieldToExec where
  name : String
  aliasName : String
  args : Args
  typ : GType
  async : Bool
  fixedResult : Option RValue
  sels : List Selection
  resolver : RValue

/-- JSON string quoting as json.Marshal performs it for escape-free strings. -/
def jsonQuote (s : String) : String := "\"" ++ s ++ "\""

/-- Invoking a type-assertion method by type name on the resolver: yields the
(matched, value) pair of results, or none when the resolver carries no such
method. -/
def lookupAssert (r : RValue) (typeName : String) : Option (Bool × RValue) :=
  match r with
  | .obj _ asserts => (asserts.find? (fun a => a.1 == typeName)).map (fun a => a.2)
  | _ => none

/-- Whether the type-assertion method for the given type name matches on this
resolver (the boolean second result of the Go method call). -/
def assertMatches (r : RValue) (typeName : String) : Bool :=
  match lookupAssert r typeName with
  | some (true, _) => true
  | _ => false

/-- Models typeOf (exec.go): with no type assertions the static name is
returned; otherwise the assertions are tried in iteration order and the first
matching name wins, the empty string standing for no match. In Go the
assertions live in a map, so the iteration order is not determined by the
query; here the list order stands for one concrete iteration order. -/
def typeOf (tfName : String) (assertions : List String) (resolver : RValue) : String :=
  if assertions.isEmpty then tfName
  else
    match assertions.find? (fun n => assertMatches resolver n) with
    | some n => n
    | none => ""

/-- Modelled from the spec: the SchemaField synthesized for a requested
__typename (s.FieldTypename in the resolvable package, not among the
sources): a fixed-result field of non-null String type whose value is the
resolved concrete type name. -/
def typenameFieldToExec (aliasName : String) (resName : String) (resolver : RValue) : FieldToExec :=
  { name := "__typename", aliasName := aliasName, args := [],
    typ := GType.nonNull (GType.scalar "String"), async := false,
    fixedResult := some (RValue.scalarJSON (jsonQuote resName)),
    sels := [], resolver := resolver }

/-- Appending this occurrence's sub-selections to the already registered entry
for the alias (the field.sels append at exec.go line 159 through the
fieldByAlias pointer). -/
def updateSels (acc : List FieldToExec) (aliasName : String) (newSels : List Selection) : List FieldToExec :=
  acc.map (fun fe => if fe.aliasName == aliasName then { fe with sels := fe.sels ++ newSels } else fe)

/- collectFieldsToResolve (exec.go) walks the flat selection list,
   registering a new fieldToExec on the first occurrence of an alias and
   merging sub-selections into the registered entry on later occurrences; a
   requested __typename synthesizes a fixed-result field unless the alias is
   taken; a type assertion recurses into its selections against the asserted
   value when its predicate matches. The ordered accumulator plays the role
   of the fields slice plus the fieldByAlias index; collectOneSelection is
   the body of the Go range loop for one selection. -/
mutual

def collectFieldsToResolve : List Selection → RValue → List FieldToExec → List FieldToExec
  | [], _, acc => acc
  | sel :: rest, resolver, acc =>
      collectFieldsToResolve rest resolver (collectOneSelection sel resolver acc)

def collectOneSelection : Selection → RValue → List FieldToExec → List FieldToExec
  | Selection.field n a args t asy fx subsels, resolver, acc =>
      if acc.any (fun fe => fe.aliasName == a) then updateSels acc a subsels
      else
        acc ++ [{ name := n, aliasName := a, args := args, typ := t, async := asy,
                  fixedResult := fx, sels := subsels, resolver := resolver }]
  | Selection.typename a tn asserts, resolver, acc =>
      if acc.any (fun fe => fe.aliasName == a) then acc
      else acc ++ [typenameFieldToExec a (typeOf tn asserts resolver) resolver]
  | Selection.assertion tn subsels, resolver, acc =>
      match lookupAssert resolver tn with
      | some (true, v) => collectFieldsToResolve subsels v acc
      | _ => acc

end

/-- Models resolvedToNull (exec.go): whether a field buffer holds exactly the
literal bytes null. -/
def resolvedToNull (b : String) : Bool := b == "null"

/-- The serialization loop of execSelections (exec.go lines 126 to 147): the
accumulator starts as the opening brace; a field of non-null type whose buffer
resolved to null resets the output and yields the literal null; otherwise the
alias and buffer are appended, comma separated. -/
def writeObjectGo : List (FieldToExec × String) → Bool → String → String
  | [], _, acc => acc ++ "\x7d"
  | (fe, o) :: rest, first, acc =>
      if isNonNullType fe.typ && resolvedToNull o then "null"
      else
        writeObjectGo rest false
          (acc ++ (if first then "" else ",") ++ jsonQuote fe.aliasName ++ ":" ++ o)

/-- Object assembly entry point: the loop started on an opening brace. -/
def writeObject (l : List (FieldToExec × String)) : String :=
  writeObjectGo l true "\x7b"

/-- The serialization loop of execList (exec.go lines 383 to 398): when the
list wraps a non-null type and one element buffer resolved to null, the whole
list output is reset to the literal null. -/
def writeListGo (listOfNonNull : Bool) : List String → Bool → String → String
  | [], _, acc => acc ++ "]"
  | e :: rest, first, acc =>
      if listOfNonNull && resolvedToNull e then "null"
      else writeListGo listOfNonNull rest false (acc ++ (if first then "" else ",") ++ e)

/-- List assembly entry point: the loop started on an opening bracket. -/
def writeList (listOfNonNull : Bool) (entryouts : List String) : String :=
  writeListGo listOfNonNull entryouts true "["

/-- Scheduling and semaphore events recorded by the embedding: the scheduling
decision of execSelections, the span of one field execution, operations on the
request limiter (Request.Limiter), the resolver invocation itself, and
operations on the per-list channel allocated inside execList (identified by
the path of the execList call that created it). -/
inductive Event where
  | schedSerial
  | schedAsync
  | fieldStart (aliasName : String)
  | fieldEnd (aliasName : String)
  | limiterAcquire
  | limiterRelease
  | resolverCall (name : String)
  | listSemAcquire (path : List PathElem)
  | listSemRelease (path : List PathElem)
deriving DecidableEq

/-- Observable effects of one execution step: errors appended to the request
error list (Request.AddError), panic values logged via the request logger,
the recorded events, and the bytes written to the output buffer. -/
structure EffOut where
  errs : List QueryError
  logs : List String
  events : List Event
  out : String
deriving DecidableEq

/-- Read-only request configuration: the limiter capacity (MaxParallelism)
and the pluggable panic handler, modelled as the message it builds from a
panic value (PanicHandler.MakePanicError). -/
structure ReqCfg where
  maxParallelism : Nat
  panicHandler : String → String

/-- Models f.resolve, the invocation of the bound resolver method on the
receiver value with the given context (field.Resolve in the resolvable
package dispatches the call; the binding layer guarantees the method exists,
a missing method being a reflect-level panic). -/
def resolveField (resolver : RValue) (name : String) (ctx : Ctx) : ROut RValue :=
  match resolver with
  | .obj fields _ =>
      match fields.find? (fun f => f.1 == name) with
      | some f => f.2 ctx
      | none => ROut.panicked "reflect: method not found"
  | _ => ROut.panicked "reflect: method not found"

/-- Whether the reflected value is absent: an invalid value or a nil pointer
or interface (exec.go line 289). -/
def isNilRValue : RValue → Bool
  | .nilv => true
  | _ => false

/-- The fmt.Stringer form of a resolved enum value (exec.go lines 327 to
331); only enum-kind values are modelled. -/
def enumString : RValue → String
  | .enumName s => s
  | _ => ""

/-- The bytes json.Marshal produces for a scalar value; scalarJSON carries
them directly. Other kinds are not modelled (no claim concerns them). -/
def marshalValue : RValue → String
  | .scalarJSON s => s
  | _ => ""

/-- The shape of execSelectionSet at one recursion level: the open-recursion
parameter through which the per-level functions below reach the next level of
the mutual recursion of exec.go. -/
abbrev SelSetFn := ReqCfg → Ctx → List Selection → GType → PathSegment → RValue → EffOut

/-- Models execFieldSelection (exec.go): acquires the request limiter, runs
the inner recovery boundary (fixed-result short circuit, cancellation check,
resolver invocation, argument-context placement, error construction carrying
path, resolver error and extensions, panic recovery with logging and the
panic handler), releases the limiter, and either records the error writing
null or recurses into the selection set. The noop tracer makes traceCtx the
incoming context. -/
def execFieldSelectionF (selSet : SelSetFn) (cfg : ReqCfg) (ctx : Ctx) (f : FieldToExec)
    (path : PathSegment) (applyLimiter : Bool) : EffOut :=
  let startEv : List Event := [Event.fieldStart f.aliasName]
  let acq : List Event := if applyLimiter then [Event.limiterAcquire] else []
  let rel : List Event := if applyLimiter then [Event.limiterRelease] else []
  match f.fixedResult with
  | some v =>
      let sub := selSet cfg ctx f.sels f.typ path v
      { errs := sub.errs, logs := sub.logs,
        events := startEv ++ acq ++ rel ++ sub.events ++ [Event.fieldEnd f.aliasName],
        out := sub.out }
  | none =>
    match ctx.err with
    | some e =>
        { errs := [{ message := e }], logs := [],
          events := startEv ++ acq ++ rel ++ [Event.fieldEnd f.aliasName],
          out := "null" }
    | none =>
        match resolveField f.resolver f.name ctx with
        | ROut.err msg exts =>
            { errs := [{ message := msg, path := path.toSlice,
                         resolverError := some msg, extensions := exts }],
              logs := [],
              events := startEv ++ acq ++ [Event.resolverCall f.name] ++ rel
                ++ [Event.fieldEnd f.aliasName],
              out := "null" }
        | ROut.panicked pv =>
            { errs := [{ message := cfg.panicHandler pv, path := path.toSlice }],
              logs := [pv],
              events := startEv ++ acq ++ [Event.resolverCall f.name] ++ rel
                ++ [Event.fieldEnd f.aliasName],
              out := "null" }
        | ROut.ok v =>
            let traceCtx := if f.args.isEmpty then ctx else contextWithArguments ctx f.args
            let sub := selSet cfg traceCtx f.sels f.typ path v
            { errs := sub.errs, logs := sub.logs,
              events := startEv ++ acq ++ [Event.resolverCall f.name] ++ rel
                ++ sub.events ++ [Event.fieldEnd f.aliasName],
              out := sub.out }

/-- The per-field loop of execSelections: each field runs through
execFieldSelection with a fresh buffer, the path extended by the field alias,
and applyLimiter set to true (exec.go lines 110 to 123). -/
def execFieldsF (selSet : SelSetFn) (cfg : ReqCfg) (ctx : Ctx) (fields : List FieldToExec)
    (path : PathSegment) : List EffOut :=
  match fields with
  | [] => []
  | f :: rest =>
      execFieldSelectionF selSet cfg ctx f
          (PathSegment.cons path (PathElem.fieldAlias f.aliasName)) true
        :: execFieldsF selSet cfg ctx rest path

/-- Models execSelections (exec.go): decides the scheduling mode (async
exactly when not serial and some selection is asynchronous), collects the
fields, drives every field to completion into its own buffer, then assembles
the object output. Both Go branches run every field with a fresh buffer and
funnel errors through the locked AddError; the fold here realizes the serial
branch exactly, and for the async branch it is the declaration-order
interleaving of the goroutines. -/
def execSelectionsF (selSet : SelSetFn) (cfg : ReqCfg) (ctx : Ctx) (sels : List Selection)
    (path : PathSegment) (resolver : RValue) (serially : Bool) : EffOut :=
  let async := !serially && HasAsyncSel sels
  let fields := collectFieldsToResolve sels resolver []
  let outs := execFieldsF selSet cfg ctx fields path
  { errs := (outs.map EffOut.errs).flatten,
    logs := (outs.map EffOut.logs).flatten,
    events := (if async then Event.schedAsync else Event.schedSerial) ::
      (outs.map EffOut.events).flatten,
    out := writeObject (fields.zip (outs.map EffOut.out)) }

/-- The per-element loop of execList, carrying the element index for the path
segment; in the async branch each element is wrapped in an acquire and a
release of the per-list channel. -/
def execListElemsF (selSet : SelSetFn) (cfg : ReqCfg) (ctx : Ctx) (sels : List Selection)
    (ofType : GType) (path : PathSegment) (async : Bool) (i : Nat)
    (elems : List RValue) : List EffOut :=
  match elems with
  | [] => []
  | v :: rest =>
      let sub := selSet cfg ctx sels ofType (PathSegment.cons path (PathElem.index i)) v
      let sub2 :=
        if async then
          { sub with events := Event.listSemAcquire path.toSlice :: sub.events
              ++ [Event.listSemRelease path.toSlice] }
        else sub
      sub2 :: execListElemsF selSet cfg ctx sels ofType path async (i + 1) rest

/-- Models execList (exec.go): executes every element against the inner type
with the path extended by the element index, then assembles the list output;
when a selection is asynchronous the element goroutine spawning is gated by a
fresh channel of capacity cap(Limiter) allocated by this call (exec.go lines
362 to 374, including the final drain loop), recorded as listSem events
identified by the path of this call. -/
def execListF (selSet : SelSetFn) (cfg : ReqCfg) (ctx : Ctx) (sels : List Selection)
    (ofType : GType) (path : PathSegment) (resolver : RValue) : EffOut :=
  match resolver with
  | RValue.listv elems =>
      let async := HasAsyncSel sels
      let entries := execListElemsF selSet cfg ctx sels ofType path async 0 elems
      let drain : List Event :=
        if async then
          (List.range cfg.maxParallelism).map (fun _ => Event.listSemAcquire path.toSlice)
        else []
      { errs := (entries.map EffOut.errs).flatten,
        logs := (entries.map EffOut.logs).flatten,
        events := (entries.map EffOut.events).flatten ++ drain,
        out := writeList (isNonNullType ofType) (entries.map EffOut.out) }
  | _ => { errs := [], logs := [], events := [], out := "" }

/-- Models execSelectionSet (exec.go), indexed by the recursion depth it may
still descend: unwraps one NonNull, emits null (with a non-null violation
error when applicable) for an absent value, recurses into execSelections for
composite kinds and into execList for lists, and serializes scalars and
enums. The fuel only bounds the depth of the mutual recursion of exec.go;
the unreachable default branch of the Go type switch is modelled as empty
output. -/
def execSelectionSet : Nat → SelSetFn
  | 0 => fun _ _ _ _ _ _ => { errs := [], logs := [], events := [], out := "" }
  | n + 1 => fun cfg ctx sels typ path resolver =>
      let tn := unwrapNonNull typ
      if isNilRValue resolver then
        { errs := if tn.2 then
              [{ message := "graphql: got nil for non-null " ++ jsonQuote (typeString tn.1),
                 path := path.toSlice }]
            else [],
          logs := [], events := [], out := "null" }
      else
        match tn.1 with
        | GType.object _ => execSelectionsF (execSelectionSet n) cfg ctx sels path resolver false
        | GType.list ofType => execListF (execSelectionSet n) cfg ctx sels ofType path resolver
        | GType.scalar _ => { errs := [], logs := [], events := [], out := marshalValue resolver }
        | GType.enum ename evalues =>
            let nm := enumString resolver
            if evalues.contains nm then
              { errs := [], logs := [], events := [], out := jsonQuote nm }
            else
              { errs := [{ message := "Invalid value " ++ nm ++ ".\nExpected type " ++ ename ++ ", found " ++ nm ++ ".",
                           path := path.toSlice }],
                logs := [], events := [], out := "null" }
        | GType.nonNull _ => { errs := [], logs := [], events := [], out := "" }

/-- execSelections at a given recursion depth. -/
def execSelections (fuel : Nat) (cfg : ReqCfg) (ctx : Ctx) (sels : List Selection)
    (path : PathSegment) (resolver : RValue) (serially : Bool) : EffOut :=
  execSelectionsF (execSelectionSet fuel) cfg ctx sels path resolver serially

/-- execFieldSelection at a given recursion depth. -/
def execFieldSelection (fuel : Nat) (cfg : ReqCfg) (ctx : Ctx) (f : FieldToExec)
    (path : PathSegment) (applyLimiter : Bool) : EffOut :=
  execFieldSelectionF (execSelectionSet fuel) cfg ctx f path applyLimiter

/-- The field loop at a given recursion depth. -/
def execFields (fuel : Nat) (cfg : ReqCfg) (ctx : Ctx) (fields : List FieldToExec)
    (path : PathSegment) : List EffOut :=
  execFieldsF (execSelectionSet fuel) cfg ctx fields path

/-- execList at a given recursion depth. -/
def execList (fuel : Nat) (cfg : ReqCfg) (ctx : Ctx) (sels : List Selection)
    (ofType : GType) (path : PathSegment) (resolver : RValue) : EffOut :=
  execListF (execSelectionSet fuel) cfg ctx sels ofType path resolver

/-- The element loop at a given recursion depth. -/
def execListElems (fuel : Nat) (cfg : ReqCfg) (ctx : Ctx) (sels : List Selection)
    (ofType : GType) (path : PathSegment) (async : Bool) (i : Nat)
    (elems : List RValue) : List EffOut :=
  execListElemsF (execSelectionSet fuel) cfg ctx sels ofType path async i elems

/-- The post-processing of Request.Execute (exec.go lines 74 to 78): a
cancelled context drops the data and replaces the whole error list with a
single error built from the context error. -/
def executePost (ctx : Ctx) (out : String) (errs : List QueryError) :
    Option String × List QueryError :=
  match ctx.err with
  | some e => (none, [{ message := e }])
  | none => (some out, errs)

/-- Models Request.Execute for query and mutation operations: the root
selection set executes serially exactly when the operation is a mutation
(exec.go line 71), and the outcome passes through executePost.
validateSelections (max-depth validation, not among the sources) is modelled
as accepting. -/
def Execute (fuel : Nat) (cfg : ReqCfg) (ctx : Ctx) (sels : List Selection)
    (resolver : RValue) (isMutation : Bool) : Option String × List QueryError :=
  let r := execSelections fuel cfg ctx sels PathSegment.nil resolver isMutation
  executePost ctx r.out r.errs

/-- Result of a Go type assertion without the comma-ok form: the asserted
value, or a runtime panic when the interface value is nil or has another
type. -/
inductive AssertResult (α : Type) where
  | ok (a : α)
  | panicked
deriving DecidableEq

/-- Models ArgsFromContext (exec.go lines 207 to 209): ctx.Value under the
arguments key followed by an unchecked type assertion; when the key was
never set, Value yields nil and the assertion panics. -/
def ArgsFromContext (ctx : Ctx) : AssertResult Args :=
  match ctx.arguments with
  | some m => AssertResult.ok m
  | none => AssertResult.panicked

/-- Models ArgumentsFromContext (graphql.go lines 234 to 237): delegates to
exec.ArgsFromContext. -/
def ArgumentsFromContext (ctx : Ctx) : AssertResult Args :=
  ArgsFromContext ctx

/-- Channel-as-semaphore model of the request Limiter (a channel of capacity
MaxParallelism): a send (acquire) is enabled only while fewer than cap tokens
are held, a receive (release) removes one token. The state counts resolvers
currently inside their invocation window. -/
inductive LimiterStep (cap : Nat) : Nat → Nat → Prop where
  | acquire (k : Nat) : k < cap → LimiterStep cap k (k + 1)
  | release (k : Nat) : LimiterStep cap (k + 1) k

/-- Traces in which every resolver invocation is immediately bracketed by an
acquire and a release of the request limiter. -/
inductive Bracketed : List Event → Prop where
  | nil : Bracketed []
  | call (n : String) (rest : List Event) : Bracketed rest →
      Bracketed (Event.limiterAcquire :: Event.resolverCall n :: Event.limiterRelease :: rest)
  | other (e : Event) (rest : List Event) :
      (∀ n, e ≠ Event.resolverCall n) → Bracketed rest → Bracketed (e :: rest)

/-- The formal reading of the single-shared-semaphore sentence: every
semaphore operation performed during execution acts on the request limiter;
an operation on the per-list channel allocated inside execList is a listSem
event. -/
def usesOnlyRequestLimiter (evs : List Event) : Prop :=
  ∀ e ∈ evs, ∀ p, e ≠ Event.listSemAcquire p ∧ e ≠ Event.listSemRelease p

/- ===================  Theorems for the claims  =================== -/

/-- C2: for every field whose resolver returns a non-nil error, the engine
writes the literal bytes null into the field buffer, appends exactly one
error carrying the field path and the original resolver error with harvested
extensions, and does not recurse into the field's sub-selections (the result
does not depend on them). -/
theorem c2_resolver_error (fuel : Nat) (cfg : ReqCfg) (ctx : Ctx) (f : FieldToExec)
    (path : PathSegment) (applyLimiter : Bool) (msg : String) (exts : Option Args)
    (hfix : f.fixedResult = none) (hctx : ctx.err = none)
    (hres : resolveField f.resolver f.name ctx = ROut.err msg exts) :
    (execFieldSelection fuel cfg ctx f path applyLimiter).out = "null" ∧
    (execFieldSelection fuel cfg ctx f path applyLimiter).errs =
      [{ message := msg, path := path.toSlice, resolverError := some msg,
         extensions := exts }] ∧
    (∀ sels2, execFieldSelection fuel cfg ctx { f with sels := sels2 } path applyLimiter =
      execFieldSelection fuel cfg ctx f path applyLimiter) := by
  refine ⟨?_, ?_, ?_⟩ <;>
    simp only [execFieldSelection, execFieldSelectionF, hfix, hctx, hres] <;>
    intros <;> trivial

/-- C3: a resolver panic is absorbed by the recovery boundary: the panic
value is logged, the configured panic handler produces the error whose path
is this field's path, exactly that error is appended, and the field output is
the literal null; execution returns normally and does not enter the field's
sub-selections. -/
theorem c3_resolver_panic (fuel : Nat) (cfg : ReqCfg) (ctx : Ctx) (f : FieldToExec)
    (path : PathSegment) (applyLimiter : Bool) (pv : String)
    (hfix : f.fixedResult = none) (hctx : ctx.err = none)
    (hres : resolveField f.resolver f.name ctx = ROut.panicked pv) :
    (execFieldSelection fuel cfg ctx f path applyLimiter).out = "null" ∧
    (execFieldSelection fuel cfg ctx f path applyLimiter).errs =
      [{ message := cfg.panicHandler pv, path := path.toSlice }] ∧
    (execFieldSelection fuel cfg ctx f path applyLimiter).logs = [pv] ∧
    (∀ sels2, execFieldSelection fuel cfg ctx { f with sels := sels2 } path applyLimiter =
      execFieldSelection fuel cfg ctx f path applyLimiter) := by
  refine ⟨?_, ?_, ?_, ?_⟩ <;>
    simp only [execFieldSelection, execFieldSelectionF, hfix, hctx, hres] <;>
    intros <;> trivial

/-- C4: with a cancelled context, Execute drops the data and returns exactly
one error built from the context error no matter what was accumulated, and a
field reached with a cancelled context does not invoke its resolver (no
resolverCall event, and the outcome does not depend on the resolver at all):
it yields the cancellation error and a null buffer instead. -/
theorem c4_cancellation (fuel : Nat) (cfg : ReqCfg) (ctx : Ctx) (sels : List Selection)
    (resolver : RValue) (isMutation : Bool) (e : String) (f : FieldToExec)
    (path : PathSegment) (applyLimiter : Bool)
    (he : ctx.err = some e) (hfix : f.fixedResult = none) :
    (∀ out errs, executePost ctx out errs = (none, [{ message := e }])) ∧
    Execute fuel cfg ctx sels resolver isMutation = (none, [{ message := e }]) ∧
    (execFieldSelection fuel cfg ctx f path applyLimiter).out = "null" ∧
    (execFieldSelection fuel cfg ctx f path applyLimiter).errs = [{ message := e }] ∧
    (∀ name, Event.resolverCall name ∉ (execFieldSelection fuel cfg ctx f path applyLimiter).events) ∧
    (∀ res2, execFieldSelection fuel cfg ctx { f with resolver := res2 } path applyLimiter =
      execFieldSelection fuel cfg ctx f path applyLimiter) := by
  refine ⟨fun out errs => by simp only [executePost, he], ?_, ?_, ?_, ?_, ?_⟩
  · simp only [Execute, executePost, he]
  · simp only [execFieldSelection, execFieldSelectionF, hfix, he]
  · simp only [execFieldSelection, execFieldSelectionF, hfix, he]
  · intro name
    simp only [execFieldSelection, execFieldSelectionF, hfix, he]
    cases applyLimiter <;> simp
  · intro res2
    simp only [execFieldSelection, execFieldSelectionF, hfix, he]

/-- C10: the arguments context key is only set for fields with at least one
argument, so inside the resolver of an argument-free field (with no enclosing
field having placed arguments) ArgumentsFromContext hits the unchecked type
assertion on a nil interface and panics rather than returning a map; the
sub-selections of such a field also run under the unchanged context. -/
theorem c10_args_panic (fuel : Nat) (cfg : ReqCfg) (ctx : Ctx) (f : FieldToExec)
    (path : PathSegment) (applyLimiter : Bool) (v : RValue)
    (hargs : f.args = []) (hnone : ctx.arguments = none)
    (hfix : f.fixedResult = none) (hctx : ctx.err = none)
    (hres : resolveField f.resolver f.name ctx = ROut.ok v) :
    ArgumentsFromContext ctx = AssertResult.panicked ∧
    (∀ m : Args, ArgumentsFromContext ctx ≠ AssertResult.ok m) ∧
    (execFieldSelection fuel cfg ctx f path applyLimiter).out =
      (execSelectionSet fuel cfg ctx f.sels f.typ path v).out ∧
    (execFieldSelection fuel cfg ctx f path applyLimiter).errs =
      (execSelectionSet fuel cfg ctx f.sels f.typ path v).errs := by
  refine ⟨?_, ?_, ?_, ?_⟩
  · simp only [ArgumentsFromContext, ArgsFromContext, hnone]
  · intro m
    simp only [ArgumentsFromContext, ArgsFromContext, hnone]
    exact fun h => AssertResult.noConfusion h
  · simp only [execFieldSelection, execFieldSelectionF, hfix, hctx, hres, hargs,
      List.isEmpty_nil, if_true]
  · simp only [execFieldSelection, execFieldSelectionF, hfix, hctx, hres, hargs,
      List.isEmpty_nil, if_true]

/-- C8 counterexample: a resolver that itself calls ArgumentsFromContext on
the context it receives observes a panic, not its own arguments, although the
field declares an argument: the engine places the arguments into the context
only after the resolver has returned (exec.go lines 250 to 253). -/
theorem c8_counterexample :
    ([("x", "1")] : Args) ≠ [] ∧
    (execFieldSelection 1
        { maxParallelism := 10, panicHandler := fun p => "panic occurred: " ++ p }
        {}
        { name := "echo", aliasName := "echo", args := [("x", "1")],
          typ := GType.scalar "String", async := false, fixedResult := none,
          sels := [],
          resolver := RValue.obj
            [("echo", fun c =>
                match ArgumentsFromContext c with
                | AssertResult.ok _ => ROut.ok (RValue.scalarJSON "\"sawArguments\"")
                | AssertResult.panicked => ROut.ok (RValue.scalarJSON "\"panicInsteadOfArguments\""))]
            [] }
        PathSegment.nil true).out = "\"panicInsteadOfArguments\"" := by
  exact ⟨by decide, by decide⟩

/-- C8 amended: the arguments are placed into the context after the resolver
returns and before the sub-selections execute: the resolver is invoked on the
incoming context (the hypothesis applies resolveField to ctx itself), while
the field's descendants run under contextWithArguments ctx f.args. -/
theorem c8_amended (fuel : Nat) (cfg : ReqCfg) (ctx : Ctx) (f : FieldToExec)
    (path : PathSegment) (applyLimiter : Bool) (v : RValue)
    (hargs : f.args.isEmpty = false)
    (hfix : f.fixedResult = none) (hctx : ctx.err = none)
    (hres : resolveField f.resolver f.name ctx = ROut.ok v) :
    (execFieldSelection fuel cfg ctx f path applyLimiter).out =
      (execSelectionSet fuel cfg (contextWithArguments ctx f.args) f.sels f.typ path v).out ∧
    (execFieldSelection fuel cfg ctx f path applyLimiter).errs =
      (execSelectionSet fuel cfg (contextWithArguments ctx f.args) f.sels f.typ path v).errs ∧
    (execFieldSelection fuel cfg ctx f path applyLimiter).logs =
      (execSelectionSet fuel cfg (contextWithArguments ctx f.args) f.sels f.typ path v).logs := by
  refine ⟨?_, ?_, ?_⟩ <;>
    simp only [execFieldSelection, execFieldSelectionF, hfix, hctx, hres, hargs] <;>
    rfl

/- ===================  Concrete fixtures for witnesses  =================== -/

/-- Default configuration used by the concrete witnesses. -/
def cfg0 : ReqCfg := { maxParallelism := 10, panicHandler := fun p => "panic occurred: " ++ p }

/-- Empty root context. -/
def ctx0 : Ctx := {}

/-- A cancelled context. -/
def ctxCancelled : Ctx := { err := some "context canceled" }

/-- Path of a root field named boom. -/
def pBoom : PathSegment := PathSegment.cons PathSegment.nil (PathElem.fieldAlias "boom")

/-- A field whose resolver returns an error with extensions. -/
def fBoomErr : FieldToExec :=
  { name := "boom", aliasName := "boom", args := [], typ := GType.scalar "String",
    async := false, fixedResult := none, sels := [],
    resolver := RValue.obj [("boom", fun _ => ROut.err "kaboom" (some [("code", "X")]))] [] }

/-- A field whose resolver panics. -/
def fBoomPanic : FieldToExec :=
  { name := "boom", aliasName := "boom", args := [], typ := GType.scalar "String",
    async := false, fixedResult := none, sels := [],
    resolver := RValue.obj [("boom", fun _ => ROut.panicked "boom value")] [] }

/-- An argument-free field with a plain scalar resolver. -/
def fNoArgs : FieldToExec :=
  { name := "plain", aliasName := "plain", args := [], typ := GType.scalar "Int",
    async := false, fixedResult := none, sels := [],
    resolver := RValue.obj [("plain", fun _ => ROut.ok (RValue.scalarJSON "7"))] [] }

/-- A one-argument field with a plain scalar resolver. -/
def fOneArg : FieldToExec :=
  { name := "witharg", aliasName := "witharg", args := [("x", "1")],
    typ := GType.scalar "Int", async := false, fixedResult := none, sels := [],
    resolver := RValue.obj [("witharg", fun _ => ROut.ok (RValue.scalarJSON "5"))] [] }

/-- Witness for c2_resolver_error at a concrete erroring resolver. -/
theorem c2_resolver_error_witness :
    (execFieldSelection 1 cfg0 ctx0 fBoomErr pBoom true).out = "null" ∧
    (execFieldSelection 1 cfg0 ctx0 fBoomErr pBoom true).errs =
      [{ message := "kaboom", path := [PathElem.fieldAlias "boom"],
         resolverError := some "kaboom", extensions := some [("code", "X")] }] ∧
    execFieldSelection 1 cfg0 ctx0 { fBoomErr with sels := [Selection.typename "t" "T" []] }
        pBoom true =
      execFieldSelection 1 cfg0 ctx0 fBoomErr pBoom true := by
  have h := c2_resolver_error 1 cfg0 ctx0 fBoomErr pBoom true "kaboom"
    (some [("code", "X")]) rfl rfl rfl
  exact ⟨h.1, h.2.1, h.2.2 [Selection.typename "t" "T" []]⟩

/-- Witness for c3_resolver_panic at a concrete panicking resolver. -/
theorem c3_resolver_panic_witness :
    (execFieldSelection 1 cfg0 ctx0 fBoomPanic pBoom true).out = "null" ∧
    (execFieldSelection 1 cfg0 ctx0 fBoomPanic pBoom true).errs =
      [{ message := "panic occurred: boom value", path := [PathElem.fieldAlias "boom"] }] ∧
    (execFieldSelection 1 cfg0 ctx0 fBoomPanic pBoom true).logs = ["boom value"] ∧
    execFieldSelection 1 cfg0 ctx0 { fBoomPanic with sels := [Selection.typename "t" "T" []] }
        pBoom true =
      execFieldSelection 1 cfg0 ctx0 fBoomPanic pBoom true := by
  have h := c3_resolver_panic 1 cfg0 ctx0 fBoomPanic pBoom true "boom value" rfl rfl rfl
  exact ⟨h.1, h.2.1, h.2.2.1, h.2.2.2 [Selection.typename "t" "T" []]⟩

/-- Witness for c4_cancellation at a concrete cancelled context. -/
theorem c4_cancellation_witness :
    executePost ctxCancelled "\x7b\"a\":1\x7d" [{ message := "old" }] =
      (none, [{ message := "context canceled" }]) ∧
    Execute 1 cfg0 ctxCancelled [] RValue.nilv false =
      (none, [{ message := "context canceled" }]) ∧
    (execFieldSelection 1 cfg0 ctxCancelled fBoomErr pBoom true).out = "null" ∧
    (execFieldSelection 1 cfg0 ctxCancelled fBoomErr pBoom true).errs =
      [{ message := "context canceled" }] ∧
    Event.resolverCall "boom" ∉ (execFieldSelection 1 cfg0 ctxCancelled fBoomErr pBoom true).events ∧
    execFieldSelection 1 cfg0 ctxCancelled { fBoomErr with resolver := RValue.nilv } pBoom true =
      execFieldSelection 1 cfg0 ctxCancelled fBoomErr pBoom true := by
  have h := c4_cancellation 1 cfg0 ctxCancelled [] RValue.nilv false "context canceled"
    fBoomErr pBoom true rfl rfl
  exact ⟨h.1 "\x7b\"a\":1\x7d" [{ message := "old" }], h.2.1, h.2.2.1, h.2.2.2.1,
    h.2.2.2.2.1 "boom", h.2.2.2.2.2 RValue.nilv⟩

/-- Witness for c10_args_panic at a concrete argument-free field. -/
theorem c10_args_panic_witness :
    ArgumentsFromContext ctx0 = AssertResult.panicked ∧
    ArgumentsFromContext ctx0 ≠ AssertResult.ok [] ∧
    (execFieldSelection 1 cfg0 ctx0 fNoArgs pBoom true).out =
      (execSelectionSet 1 cfg0 ctx0 fNoArgs.sels fNoArgs.typ pBoom (RValue.scalarJSON "7")).out ∧
    (execFieldSelection 1 cfg0 ctx0 fNoArgs pBoom true).errs =
      (execSelectionSet 1 cfg0 ctx0 fNoArgs.sels fNoArgs.typ pBoom (RValue.scalarJSON "7")).errs := by
  have h := c10_args_panic 1 cfg0 ctx0 fNoArgs pBoom true (RValue.scalarJSON "7")
    rfl rfl rfl rfl rfl
  exact ⟨h.1, h.2.1 [], h.2.2.1, h.2.2.2⟩

/-- Witness for c8_amended at a concrete one-argument field. -/
theorem c8_amended_witness :
    (execFieldSelection 1 cfg0 ctx0 fOneArg pBoom true).out =
      (execSelectionSet 1 cfg0 (contextWithArguments ctx0 fOneArg.args) fOneArg.sels
        fOneArg.typ pBoom (RValue.scalarJSON "5")).out ∧
    (execFieldSelection 1 cfg0 ctx0 fOneArg pBoom true).errs =
      (execSelectionSet 1 cfg0 (contextWithArguments ctx0 fOneArg.args) fOneArg.sels
        fOneArg.typ pBoom (RValue.scalarJSON "5")).errs := by
  have h := c8_amended 1 cfg0 ctx0 fOneArg pBoom true (RValue.scalarJSON "5") rfl rfl rfl rfl
  exact ⟨h.1, h.2.1⟩

/- ===================  C1: non-null propagation  =================== -/

/-- One triggering entry makes the object serialization loop reset its output
and yield the literal null, wherever the entry sits. -/
theorem writeObjectGo_null (l : List (FieldToExec × String)) :
    ∀ (first : Bool) (acc : String),
      (∃ p ∈ l, (isNonNullType p.1.typ && resolvedToNull p.2) = true) →
      writeObjectGo l first acc = "null" := by
  induction l with
  | nil => intro first acc h; simp at h
  | cons p rest ih =>
    intro first acc h
    by_cases hp : (isNonNullType p.1.typ && resolvedToNull p.2) = true
    · simp [writeObjectGo, hp]
    · have hrest : ∃ q ∈ rest, (isNonNullType q.1.typ && resolvedToNull q.2) = true := by
        rcases h with ⟨q, hq, hqp⟩
        rcases List.mem_cons.mp hq with h1 | h2
        · exact absurd (h1 ▸ hqp) hp
        · exact ⟨q, h2, hqp⟩
      simp only [writeObjectGo, hp, Bool.false_eq_true, if_false]
      exact ih false _ hrest

/-- One null element makes the list serialization loop reset its output and
yield the literal null when the inner type is non-null. -/
theorem writeListGo_null (l : List String) :
    ∀ (first : Bool) (acc : String),
      (∃ o ∈ l, resolvedToNull o = true) →
      writeListGo true l first acc = "null" := by
  induction l with
  | nil => intro first acc h; simp at h
  | cons o rest ih =>
    intro first acc h
    by_cases ho : resolvedToNull o = true
    · simp [writeListGo, ho]
    · have hrest : ∃ q ∈ rest, resolvedToNull q = true := by
        rcases h with ⟨q, hq, hqp⟩
        rcases List.mem_cons.mp hq with h1 | h2
        · exact absurd (h1 ▸ hqp) ho
        · exact ⟨q, h2, hqp⟩
      simp only [writeListGo, ho, Bool.true_and, Bool.false_eq_true, if_false]
      exact ih false _ hrest

/-- C1: a field of non-null declared type whose buffer resolved to null makes
the enclosing object serialize to the literal null; a list whose inner type
is non-null serializes to the literal null as soon as one element buffer is
null (the parent field buffer then holds null, so the same object rule
propagates it further up); and in both cases every error recorded while the
children executed remains in the request error list of the enclosing
execution. -/
theorem c1_nonNull_propagation :
    (∀ (fuel : Nat) (cfg : ReqCfg) (ctx : Ctx) (sels : List Selection) (path : PathSegment)
       (resolver : RValue) (serially : Bool) (fe : FieldToExec) (o : String),
       (fe, o) ∈ (collectFieldsToResolve sels resolver []).zip
         ((execFields fuel cfg ctx (collectFieldsToResolve sels resolver []) path).map EffOut.out) →
       isNonNullType fe.typ = true → resolvedToNull o = true →
       (execSelections fuel cfg ctx sels path resolver serially).out = "null") ∧
    (∀ (fuel : Nat) (cfg : ReqCfg) (ctx : Ctx) (sels : List Selection) (ofType : GType)
       (path : PathSegment) (elems : List RValue) (o : String),
       isNonNullType ofType = true →
       o ∈ (execListElems fuel cfg ctx sels ofType path (HasAsyncSel sels) 0 elems).map EffOut.out →
       resolvedToNull o = true →
       (execList fuel cfg ctx sels ofType path (RValue.listv elems)).out = "null") ∧
    (∀ (fuel : Nat) (cfg : ReqCfg) (ctx : Ctx) (sels : List Selection) (path : PathSegment)
       (resolver : RValue) (serially : Bool) (q : QueryError) (eo : EffOut),
       eo ∈ execFields fuel cfg ctx (collectFieldsToResolve sels resolver []) path →
       q ∈ eo.errs →
       q ∈ (execSelections fuel cfg ctx sels path resolver serially).errs) ∧
    (∀ (fuel : Nat) (cfg : ReqCfg) (ctx : Ctx) (sels : List Selection) (ofType : GType)
       (path : PathSegment) (elems : List RValue) (q : QueryError) (eo : EffOut),
       eo ∈ execListElems fuel cfg ctx sels ofType path (HasAsyncSel sels) 0 elems →
       q ∈ eo.errs →
       q ∈ (execList fuel cfg ctx sels ofType path (RValue.listv elems)).errs) := by
  refine ⟨?_, ?_, ?_, ?_⟩
  · intro fuel cfg ctx sels path resolver serially fe o hmem hnn hnull
    simp only [execSelections, execSelectionsF, execFields, writeObject] at hmem ⊢
    exact writeObjectGo_null _ true _ ⟨(fe, o), hmem, by simp [hnn, hnull]⟩
  · intro fuel cfg ctx sels ofType path elems o hnn hmem hnull
    simp only [execList, execListF, execListElems, writeList] at hmem ⊢
    rw [hnn]
    exact writeListGo_null _ true _ ⟨o, hmem, hnull⟩
  · intro fuel cfg ctx sels path resolver serially q eo hmem hq
    simp only [execSelections, execSelectionsF, execFields] at hmem ⊢
    exact List.mem_flatten.mpr ⟨eo.errs, List.mem_map_of_mem EffOut.errs hmem, hq⟩
  · intro fuel cfg ctx sels ofType path elems q eo hmem hq
    simp only [execList, execListF, execListElems] at hmem ⊢
    exact List.mem_flatten.mpr ⟨eo.errs, List.mem_map_of_mem EffOut.errs hmem, hq⟩

/-- A non-null field selection that resolves to nil. -/
def nnFieldSel : Selection :=
  Selection.field "name" "name" [] (GType.nonNull (GType.scalar "String")) false none []

/-- A resolver returning nil for the field name. -/
def nnRes : RValue := RValue.obj [("name", fun _ => ROut.ok RValue.nilv)] []

/-- The collected fieldToExec for nnFieldSel. -/
def nnFe : FieldToExec :=
  { name := "name", aliasName := "name", args := [],
    typ := GType.nonNull (GType.scalar "String"), async := false, fixedResult := none,
    sels := [], resolver := nnRes }

/-- Witness for c1_nonNull_propagation: the non-null field name resolving to
nil nullifies the whole object, a nil element under a non-null inner type
nullifies the list, and the recorded non-null violation errors survive into
the enclosing error lists. -/
theorem c1_nonNull_propagation_witness :
    (execSelections 2 cfg0 ctx0 [nnFieldSel] PathSegment.nil nnRes false).out = "null" ∧
    (execList 2 cfg0 ctx0 [] (GType.nonNull (GType.scalar "Int")) PathSegment.nil
      (RValue.listv [RValue.scalarJSON "1", RValue.nilv, RValue.scalarJSON "3"])).out = "null" ∧
    { message := "graphql: got nil for non-null \"String\"",
      path := [PathElem.fieldAlias "name"] : QueryError } ∈
      (execSelections 2 cfg0 ctx0 [nnFieldSel] PathSegment.nil nnRes false).errs ∧
    { message := "graphql: got nil for non-null \"Int\"",
      path := [PathElem.index 1] : QueryError } ∈
      (execList 2 cfg0 ctx0 [] (GType.nonNull (GType.scalar "Int")) PathSegment.nil
        (RValue.listv [RValue.scalarJSON "1", RValue.nilv, RValue.scalarJSON "3"])).errs := by
  refine ⟨?_, ?_, ?_, ?_⟩
  · exact c1_nonNull_propagation.1 2 cfg0 ctx0 [nnFieldSel] PathSegment.nil nnRes false
      nnFe "null" (List.Mem.head _) rfl rfl
  · exact c1_nonNull_propagation.2.1 2 cfg0 ctx0 [] (GType.nonNull (GType.scalar "Int"))
      PathSegment.nil [RValue.scalarJSON "1", RValue.nilv, RValue.scalarJSON "3"] "null"
      rfl (by decide) rfl
  · exact c1_nonNull_propagation.2.2.1 2 cfg0 ctx0 [nnFieldSel] PathSegment.nil nnRes false
      _ _ (List.Mem.head _) (List.Mem.head _)
  · exact c1_nonNull_propagation.2.2.2 2 cfg0 ctx0 [] (GType.nonNull (GType.scalar "Int"))
      PathSegment.nil [RValue.scalarJSON "1", RValue.nilv, RValue.scalarJSON "3"]
      _ _ (List.Mem.tail _ (List.Mem.head _)) (List.Mem.head _)

/- ===================  C5: response key order  =================== -/

/- The response aliases of a selection list in the textual order of the
   operation; a matched type assertion contributes the aliases of its inner
   selections in place, an unmatched one contributes nothing. -/
mutual

def aliasSeq : List Selection → RValue → List String
  | [], _ => []
  | sel :: rest, r => aliasOne sel r ++ aliasSeq rest r

def aliasOne : Selection → RValue → List String
  | Selection.field _ a _ _ _ _ _, _ => [a]
  | Selection.typename a _ _, _ => [a]
  | Selection.assertion tn subsels, r =>
      match lookupAssert r tn with
      | some (true, v) => aliasSeq subsels v
      | _ => []

end

/-- First-occurrence deduplication relative to already-seen keys: the first
occurrence keeps its position, later occurrences disappear. -/
def firstOccur (seen : List String) : List String → List String
  | [] => []
  | a :: rest => if a ∈ seen then firstOccur seen rest else a :: firstOccur (a :: seen) rest

theorem mem_firstOccur (l : List String) :
    ∀ (seen : List String) (x : String), x ∈ firstOccur seen l ↔ x ∈ l ∧ x ∉ seen := by
  induction l with
  | nil => intro seen x; simp [firstOccur]
  | cons a rest ih =>
    intro seen x
    by_cases ha : a ∈ seen
    · rw [firstOccur, if_pos ha, ih]
      constructor
      · rintro ⟨hx, hns⟩; exact ⟨List.mem_cons_of_mem _ hx, hns⟩
      · rintro ⟨hx, hns⟩
        rcases List.mem_cons.mp hx with rfl | hx2
        · exact absurd ha hns
        · exact ⟨hx2, hns⟩
    · rw [firstOccur, if_neg ha]
      constructor
      · intro hx
        rcases List.mem_cons.mp hx with rfl | hx2
        · exact ⟨List.mem_cons_self _ _, ha⟩
        · have h2 := (ih (a :: seen) x).mp hx2
          exact ⟨List.mem_cons_of_mem _ h2.1, fun hs => h2.2 (List.mem_cons_of_mem _ hs)⟩
      · rintro ⟨hx, hns⟩
        rcases List.mem_cons.mp hx with rfl | hx2
        · exact List.mem_cons_self _ _
        · by_cases hxa : x = a
          · subst hxa; exact List.mem_cons_self _ _
          · refine List.mem_cons_of_mem _ ((ih (a :: seen) x).mpr ⟨hx2, ?_⟩)
            intro hs
            rcases List.mem_cons.mp hs with h1 | h2
            · exact hxa h1
            · exact hns h2

theorem firstOccur_congr (l : List String) :
    ∀ (s1 s2 : List String), (∀ x, x ∈ s1 ↔ x ∈ s2) →
      firstOccur s1 l = firstOccur s2 l := by
  induction l with
  | nil => intro s1 s2 _; rfl
  | cons a rest ih =>
    intro s1 s2 h
    by_cases ha : a ∈ s1
    · rw [firstOccur, firstOccur, if_pos ha, if_pos ((h a).mp ha)]
      exact ih s1 s2 h
    · rw [firstOccur, firstOccur, if_neg ha, if_neg (fun c => ha ((h a).mpr c))]
      refine congrArg _ (ih _ _ fun x => ?_)
      simp only [List.mem_cons]
      exact or_congr Iff.rfl (h x)

theorem firstOccur_append (l1 : List String) :
    ∀ (seen l2 : List String),
      firstOccur seen (l1 ++ l2) = firstOccur seen l1 ++ firstOccur (seen ++ l1) l2 := by
  induction l1 with
  | nil =>
    intro seen l2
    simp only [List.nil_append, List.append_nil, firstOccur]
  | cons a rest ih =>
    intro seen l2
    by_cases ha : a ∈ seen
    · rw [List.cons_append, firstOccur, if_pos ha, firstOccur, if_pos ha, ih]
      refine congrArg _ (firstOccur_congr _ _ _ fun x => ?_)
      simp only [List.mem_append, List.mem_cons]
      constructor
      · rintro (h1 | h2)
        · exact Or.inl h1
        · exact Or.inr (Or.inr h2)
      · rintro (h1 | h2 | h3)
        · exact Or.inl h1
        · exact Or.inl (h2 ▸ ha)
        · exact Or.inr h3
    · rw [List.cons_append, firstOccur, if_neg ha, firstOccur, if_neg ha, ih, List.cons_append]
      refine congrArg _ (congrArg _ (firstOccur_congr _ _ _ fun x => ?_))
      simp only [List.mem_append, List.mem_cons]
      tauto

theorem updateSels_aliases (acc : List FieldToExec) (a : String) (nsels : List Selection) :
    (updateSels acc a nsels).map FieldToExec.aliasName = acc.map FieldToExec.aliasName := by
  simp only [updateSels, List.map_map]
  refine List.map_congr_left fun fe _ => ?_
  simp only [Function.comp_apply]
  split <;> rfl

theorem any_alias_mem (acc : List FieldToExec) (a : String) :
    acc.any (fun fe => fe.aliasName == a) = true ↔ a ∈ acc.map FieldToExec.aliasName := by
  simp only [List.any_eq_true, List.mem_map, beq_iff_eq]

mutual

theorem collect_aliases : ∀ (sels : List Selection) (r : RValue) (acc : List FieldToExec),
    (collectFieldsToResolve sels r acc).map FieldToExec.aliasName =
      acc.map FieldToExec.aliasName ++
        firstOccur (acc.map FieldToExec.aliasName) (aliasSeq sels r)
  | [], r, acc => by
      simp [collectFieldsToResolve, aliasSeq, firstOccur]
  | sel :: rest, r, acc => by
      rw [collectFieldsToResolve, collect_aliases rest r (collectOneSelection sel r acc),
        collectOne_aliases sel r acc, aliasSeq, firstOccur_append, List.append_assoc]
      refine congrArg _ (congrArg _ (firstOccur_congr _ _ _ fun x => ?_))
      simp only [List.mem_append, mem_firstOccur]
      tauto

theorem collectOne_aliases : ∀ (sel : Selection) (r : RValue) (acc : List FieldToExec),
    (collectOneSelection sel r acc).map FieldToExec.aliasName =
      acc.map FieldToExec.aliasName ++
        firstOccur (acc.map FieldToExec.aliasName) (aliasOne sel r)
  | Selection.field n a args t asy fx subsels, r, acc => by
      rw [collectOneSelection, aliasOne]
      by_cases h : acc.any (fun fe => fe.aliasName == a) = true
      · rw [if_pos h, updateSels_aliases]
        have hmem : a ∈ acc.map FieldToExec.aliasName := (any_alias_mem acc a).mp h
        simp [firstOccur, hmem]
      · rw [if_neg h]
        have hmem : a ∉ acc.map FieldToExec.aliasName :=
          fun c => h ((any_alias_mem acc a).mpr c)
        simp [firstOccur, hmem]
  | Selection.typename a tn asserts, r, acc => by
      rw [collectOneSelection, aliasOne]
      by_cases h : acc.any (fun fe => fe.aliasName == a) = true
      · rw [if_pos h]
        have hmem : a ∈ acc.map FieldToExec.aliasName := (any_alias_mem acc a).mp h
        simp [firstOccur, hmem]
      · rw [if_neg h]
        have hmem : a ∉ acc.map FieldToExec.aliasName :=
          fun c => h ((any_alias_mem acc a).mpr c)
        simp [firstOccur, hmem, typenameFieldToExec]
  | Selection.assertion tn subsels, r, acc => by
      rw [collectOneSelection, aliasOne]
      cases hl : lookupAssert r tn with
      | none => simp [firstOccur]
      | some p =>
        cases p with
        | mk b v =>
          cases b with
          | true => exact collect_aliases subsels v acc
          | false => simp [firstOccur]

end

/-- The tail entries of the serialized object, each preceded by a comma. -/
def objEntries : List (FieldToExec × String) → String
  | [] => ""
  | p :: rest => "," ++ jsonQuote p.1.aliasName ++ ":" ++ p.2 ++ objEntries rest

/-- The serialized object body: alias and buffer pairs, comma separated, in
order of the field list. -/
def objectBody : List (FieldToExec × String) → String
  | [] => ""
  | p :: rest => jsonQuote p.1.aliasName ++ ":" ++ p.2 ++ objEntries rest

theorem writeObjectGo_noAbort (l : List (FieldToExec × String)) :
    ∀ acc : String,
      (∀ p ∈ l, (isNonNullType p.1.typ && resolvedToNull p.2) = false) →
      writeObjectGo l false acc = acc ++ objEntries l ++ "\x7d" := by
  induction l with
  | nil => intro acc _; simp [writeObjectGo, objEntries]
  | cons p rest ih =>
    intro acc h
    have hp := h p (List.mem_cons_self _ _)
    rw [writeObjectGo, hp]
    simp only [Bool.false_eq_true, if_false]
    rw [ih _ (fun q hq => h q (List.mem_cons_of_mem _ hq)), objEntries]
    simp [String.append_assoc]

/-- When no entry triggers non-null propagation, the object output is the
brace-wrapped comma-separated alias and buffer pairs in field order. -/
theorem writeObject_noAbort (l : List (FieldToExec × String))
    (h : ∀ p ∈ l, (isNonNullType p.1.typ && resolvedToNull p.2) = false) :
    writeObject l = "\x7b" ++ objectBody l ++ "\x7d" := by
  cases l with
  | nil => simp [writeObject, writeObjectGo, objectBody]
  | cons p rest =>
    have hp := h p (List.mem_cons_self _ _)
    rw [writeObject, writeObjectGo, hp]
    simp only [Bool.false_eq_true, if_false]
    rw [writeObjectGo_noAbort _ _ (fun q hq => h q (List.mem_cons_of_mem _ hq)), objectBody]
    simp [String.append_assoc]

/-- C5: the emitted keys follow the textual alias order of the operation with
the first occurrence fixing the position (collected aliases are exactly the
first-occurrence deduplication of the textual alias sequence); absent
propagation the serialization emits exactly those keys in field order; and a
later occurrence of a registered alias only appends its sub-selections to the
registered entry, changing no key and moving none. -/
theorem c5_response_key_order :
    (∀ (sels : List Selection) (r : RValue),
       (collectFieldsToResolve sels r []).map FieldToExec.aliasName =
         firstOccur [] (aliasSeq sels r)) ∧
    (∀ (l : List (FieldToExec × String)),
       (∀ p ∈ l, (isNonNullType p.1.typ && resolvedToNull p.2) = false) →
       writeObject l = "\x7b" ++ objectBody l ++ "\x7d") ∧
    (∀ (n a : String) (args : Args) (t : GType) (asy : Bool) (fx : Option RValue)
       (subsels : List Selection) (r : RValue) (acc : List FieldToExec),
       acc.any (fun fe => fe.aliasName == a) = true →
       collectOneSelection (Selection.field n a args t asy fx subsels) r acc =
         updateSels acc a subsels) ∧
    (∀ (acc : List FieldToExec) (a : String) (nsels : List Selection),
       (updateSels acc a nsels).map FieldToExec.aliasName =
         acc.map FieldToExec.aliasName) := by
  refine ⟨?_, writeObject_noAbort, ?_, updateSels_aliases⟩
  · intro sels r
    have h := collect_aliases sels r []
    simpa using h
  · intro n a args t asy fx subsels r acc h
    rw [collectOneSelection, if_pos h]

/-- Selections with a duplicated alias for the c5 witness. -/
def selsC5 : List Selection :=
  [Selection.field "a" "a" [] (GType.scalar "Int") false none [Selection.typename "t1" "T" []],
   Selection.field "b" "b" [] (GType.scalar "Int") false none [],
   Selection.field "a" "a" [] (GType.scalar "Int") false none [Selection.typename "t2" "T" []]]

/-- A collected field with alias a. -/
def feA : FieldToExec :=
  { name := "a", aliasName := "a", args := [], typ := GType.scalar "Int",
    async := false, fixedResult := none, sels := [], resolver := RValue.nilv }

/-- A collected field with alias b. -/
def feB : FieldToExec := { feA with name := "b", aliasName := "b" }

/-- Witness for c5_response_key_order: a duplicated alias keeps its first
position, serialization emits the keys in field order, and merging a later
occurrence is exactly updateSels, which changes no alias. -/
theorem c5_response_key_order_witness :
    (collectFieldsToResolve selsC5 RValue.nilv []).map FieldToExec.aliasName =
      firstOccur [] (aliasSeq selsC5 RValue.nilv) ∧
    firstOccur [] (aliasSeq selsC5 RValue.nilv) = ["a", "b"] ∧
    writeObject [(feA, "1"), (feB, "2")] = "\x7b\"a\":1,\"b\":2\x7d" ∧
    collectOneSelection (Selection.field "a" "a" [] (GType.scalar "Int") false none [])
        RValue.nilv [feA, feB] =
      updateSels [feA, feB] "a" [] ∧
    (updateSels [feA, feB] "a" []).map FieldToExec.aliasName = ["a", "b"] := by
  refine ⟨c5_response_key_order.1 selsC5 RValue.nilv, by decide, ?_,
    c5_response_key_order.2.2.1 "a" "a" [] (GType.scalar "Int") false none []
      RValue.nilv [feA, feB] (by decide), ?_⟩
  · rw [c5_response_key_order.2.1 [(feA, "1"), (feB, "2")] (by decide)]
    decide
  · rw [c5_response_key_order.2.2.2]
    decide

/- ===================  C6: mutation seriality  =================== -/

/-- Every field execution produces a contiguous event block opened by its
fieldStart and closed by its fieldEnd. -/
theorem execFieldSelectionF_events_shape (selSet : SelSetFn) (cfg : ReqCfg) (ctx : Ctx)
    (f : FieldToExec) (path : PathSegment) (al : Bool) :
    ∃ mid, (execFieldSelectionF selSet cfg ctx f path al).events =
      Event.fieldStart f.aliasName :: (mid ++ [Event.fieldEnd f.aliasName]) := by
  unfold execFieldSelectionF
  cases f.fixedResult with
  | some v =>
      refine ⟨(if al then [Event.limiterAcquire] else []) ++
        (if al then [Event.limiterRelease] else []) ++
        (selSet cfg ctx f.sels f.typ path v).events, ?_⟩
      simp [List.append_assoc]
  | none =>
    cases ctx.err with
    | some e =>
        refine ⟨(if al then [Event.limiterAcquire] else []) ++
          (if al then [Event.limiterRelease] else []), ?_⟩
        simp [List.append_assoc]
    | none =>
      cases resolveField f.resolver f.name ctx with
      | err msg exts =>
          refine ⟨(if al then [Event.limiterAcquire] else []) ++ [Event.resolverCall f.name] ++
            (if al then [Event.limiterRelease] else []), ?_⟩
          simp [List.append_assoc]
      | panicked pv =>
          refine ⟨(if al then [Event.limiterAcquire] else []) ++ [Event.resolverCall f.name] ++
            (if al then [Event.limiterRelease] else []), ?_⟩
          simp [List.append_assoc]
      | ok v =>
          refine ⟨(if al then [Event.limiterAcquire] else []) ++ [Event.resolverCall f.name] ++
            (if al then [Event.limiterRelease] else []) ++
            (selSet cfg (if f.args.isEmpty then ctx else contextWithArguments ctx f.args)
              f.sels f.typ path v).events, ?_⟩
          simp [List.append_assoc]

/-- A pair of the field-loop zip is the execution of exactly that field. -/
theorem execFieldsF_zip_mem (selSet : SelSetFn) (cfg : ReqCfg) (ctx : Ctx) :
    ∀ (fields : List FieldToExec) (path : PathSegment) (f : FieldToExec) (eo : EffOut),
      (f, eo) ∈ fields.zip (execFieldsF selSet cfg ctx fields path) →
      eo = execFieldSelectionF selSet cfg ctx f
        (PathSegment.cons path (PathElem.fieldAlias f.aliasName)) true := by
  intro fields
  induction fields with
  | nil => intro path f eo h; simp [execFieldsF] at h
  | cons g rest ih =>
    intro path f eo h
    rw [execFieldsF, List.zip_cons_cons] at h
    rcases List.mem_cons.mp h with h1 | h2
    · obtain ⟨rfl, rfl⟩ := Prod.mk.injEq .. |>.mp h1.symm |>.imp Eq.symm Eq.symm
      rfl
    · exact ih path f eo h2

/-- C6: with the serially flag set (mutation root) the trace of the selection
set is the sequential concatenation of the per-field blocks in declaration
order, each block spanning one field from its start to its end (so no field
begins before the previous one, subtree included, has finished); and the
concurrent branch is chosen exactly when the flag is unset and some selection
is asynchronous. -/
theorem c6_mutation_serial :
    (∀ (fuel : Nat) (cfg : ReqCfg) (ctx : Ctx) (sels : List Selection) (path : PathSegment)
       (resolver : RValue),
       (execSelections fuel cfg ctx sels path resolver true).events =
         Event.schedSerial ::
           ((execFields fuel cfg ctx (collectFieldsToResolve sels resolver []) path).map
             EffOut.events).flatten) ∧
    (∀ (fuel : Nat) (cfg : ReqCfg) (ctx : Ctx) (fields : List FieldToExec) (path : PathSegment)
       (f : FieldToExec) (eo : EffOut),
       (f, eo) ∈ fields.zip (execFields fuel cfg ctx fields path) →
       ∃ mid, eo.events =
         Event.fieldStart f.aliasName :: (mid ++ [Event.fieldEnd f.aliasName])) ∧
    (∀ (fuel : Nat) (cfg : ReqCfg) (ctx : Ctx) (sels : List Selection) (path : PathSegment)
       (resolver : RValue) (serially : Bool),
       (execSelections fuel cfg ctx sels path resolver serially).events.head? =
         some Event.schedAsync ↔ (serially = false ∧ HasAsyncSel sels = true)) := by
  refine ⟨?_, ?_, ?_⟩
  · intro fuel cfg ctx sels path resolver
    simp [execSelections, execSelectionsF, execFields]
  · intro fuel cfg ctx fields path f eo h
    rw [execFields] at h
    rw [execFieldsF_zip_mem _ cfg ctx fields path f eo h]
    exact execFieldSelectionF_events_shape _ cfg ctx f _ true
  · intro fuel cfg ctx sels path resolver serially
    cases serially with
    | true => simp [execSelections, execSelectionsF]
    | false =>
      cases h : HasAsyncSel sels with
      | true => simp [execSelections, execSelectionsF, h]
      | false => simp [execSelections, execSelectionsF, h]

/-- Selection of a plain root field a. -/
def selA : Selection := Selection.field "a" "a" [] (GType.scalar "Int") false none []

/-- Selection of a plain root field b. -/
def selB : Selection := Selection.field "b" "b" [] (GType.scalar "Int") false none []

/-- Selection of an asynchronous root field x. -/
def selAsync : Selection := Selection.field "x" "x" [] (GType.scalar "Int") true none []

/-- Resolver for the two mutation root fields. -/
def resAB : RValue :=
  RValue.obj [("a", fun _ => ROut.ok (RValue.scalarJSON "1")),
              ("b", fun _ => ROut.ok (RValue.scalarJSON "2")),
              ("x", fun _ => ROut.ok (RValue.scalarJSON "3"))] []

/-- Witness for c6_mutation_serial: a concrete two-field mutation root. -/
theorem c6_mutation_serial_witness :
    (execSelections 2 cfg0 ctx0 [selA, selB] PathSegment.nil resAB true).events =
      Event.schedSerial ::
        ((execFields 2 cfg0 ctx0 (collectFieldsToResolve [selA, selB] resAB [])
          PathSegment.nil).map EffOut.events).flatten ∧
    (∃ mid, (execFieldSelection 2 cfg0 ctx0
        { name := "a", aliasName := "a", args := [], typ := GType.scalar "Int",
          async := false, fixedResult := none, sels := [], resolver := resAB }
        (PathSegment.cons PathSegment.nil (PathElem.fieldAlias "a")) true).events =
      Event.fieldStart "a" :: (mid ++ [Event.fieldEnd "a"])) ∧
    ((execSelections 2 cfg0 ctx0 [selAsync] PathSegment.nil resAB false).events.head? =
      some Event.schedAsync ↔ (false = false ∧ HasAsyncSel [selAsync] = true)) := by
  refine ⟨c6_mutation_serial.1 2 cfg0 ctx0 [selA, selB] PathSegment.nil resAB, ?_,
    c6_mutation_serial.2.2 2 cfg0 ctx0 [selAsync] PathSegment.nil resAB false⟩
  exact c6_mutation_serial.2.1 2 cfg0 ctx0
    (collectFieldsToResolve [selA, selB] resAB []) PathSegment.nil
    { name := "a", aliasName := "a", args := [], typ := GType.scalar "Int",
      async := false, fixedResult := none, sels := [], resolver := resAB }
    (execFieldSelection 2 cfg0 ctx0
      { name := "a", aliasName := "a", args := [], typ := GType.scalar "Int",
        async := false, fixedResult := none, sels := [], resolver := resAB }
      (PathSegment.cons PathSegment.nil (PathElem.fieldAlias "a")) true)
    (List.Mem.head _)

/- ===================  C7: limiter semaphore  =================== -/

theorem bracketed_append : ∀ (xs ys : List Event), Bracketed xs → Bracketed ys →
    Bracketed (xs ++ ys) := by
  intro xs ys hx hy
  induction hx with
  | nil => exact hy
  | call n rest _ ih => exact Bracketed.call n _ ih
  | other e rest hne _ ih => exact Bracketed.other e _ hne ih

theorem bracketed_nonCalls : ∀ (evs : List Event),
    (∀ e ∈ evs, ∀ n, e ≠ Event.resolverCall n) → Bracketed evs := by
  intro evs
  induction evs with
  | nil => intro _; exact Bracketed.nil
  | cons e rest ih =>
    intro h
    exact Bracketed.other e rest (h e (List.mem_cons_self _ _))
      (ih fun x hx => h x (List.mem_cons_of_mem _ hx))

theorem bracketed_flatten : ∀ (l : List (List Event)),
    (∀ x ∈ l, Bracketed x) → Bracketed l.flatten := by
  intro l
  induction l with
  | nil => intro _; exact Bracketed.nil
  | cons x rest ih =>
    intro h
    exact bracketed_append x rest.flatten (h x (List.mem_cons_self _ _))
      (ih fun y hy => h y (List.mem_cons_of_mem _ hy))

theorem bracketed_fieldEnd (a : String) : Bracketed [Event.fieldEnd a] :=
  Bracketed.other _ _ (fun _ h => Event.noConfusion h) Bracketed.nil

/-- Every resolver invocation inside a field execution is immediately
bracketed by an acquire and a release of the request limiter (exec.go lines
219 to 272 with applyLimiter true, as every field execution is invoked). -/
theorem bracketed_execFieldSelectionF (selSet : SelSetFn)
    (h : ∀ cfg ctx sels typ path r, Bracketed (selSet cfg ctx sels typ path r).events)
    (cfg : ReqCfg) (ctx : Ctx) (f : FieldToExec) (path : PathSegment) :
    Bracketed (execFieldSelectionF selSet cfg ctx f path true).events := by
  unfold execFieldSelectionF
  cases f.fixedResult with
  | some v =>
      exact Bracketed.other _ _ (fun _ hc => Event.noConfusion hc)
        (Bracketed.other _ _ (fun _ hc => Event.noConfusion hc)
          (Bracketed.other _ _ (fun _ hc => Event.noConfusion hc)
            (bracketed_append _ _ (h cfg ctx f.sels f.typ path v)
              (bracketed_fieldEnd f.aliasName))))
  | none =>
    cases ctx.err with
    | some e =>
        exact Bracketed.other _ _ (fun _ hc => Event.noConfusion hc)
          (Bracketed.other _ _ (fun _ hc => Event.noConfusion hc)
            (Bracketed.other _ _ (fun _ hc => Event.noConfusion hc)
              (bracketed_fieldEnd f.aliasName)))
    | none =>
      cases resolveField f.resolver f.name ctx with
      | err msg exts =>
          exact Bracketed.other _ _ (fun _ hc => Event.noConfusion hc)
            (Bracketed.call f.name _ (bracketed_fieldEnd f.aliasName))
      | panicked pv =>
          exact Bracketed.other _ _ (fun _ hc => Event.noConfusion hc)
            (Bracketed.call f.name _ (bracketed_fieldEnd f.aliasName))
      | ok v =>
          exact Bracketed.other _ _ (fun _ hc => Event.noConfusion hc)
            (Bracketed.call f.name _
              (bracketed_append _ _
                (h cfg (if f.args.isEmpty then ctx else contextWithArguments ctx f.args)
                  f.sels f.typ path v)
                (bracketed_fieldEnd f.aliasName)))

theorem bracketed_execFieldsF (selSet : SelSetFn)
    (h : ∀ cfg ctx sels typ path r, Bracketed (selSet cfg ctx sels typ path r).events)
    (cfg : ReqCfg) (ctx : Ctx) :
    ∀ (fields : List FieldToExec) (path : PathSegment),
      ∀ eo ∈ execFieldsF selSet cfg ctx fields path, Bracketed eo.events := by
  intro fields
  induction fields with
  | nil => intro path eo he; simp [execFieldsF] at he
  | cons f rest ih =>
    intro path eo he
    rw [execFieldsF] at he
    rcases List.mem_cons.mp he with h1 | h2
    · rw [h1]; exact bracketed_execFieldSelectionF selSet h cfg ctx f _
    · exact ih path eo h2

theorem bracketed_execSelectionsF (selSet : SelSetFn)
    (h : ∀ cfg ctx sels typ path r, Bracketed (selSet cfg ctx sels typ path r).events)
    (cfg : ReqCfg) (ctx : Ctx) (sels : List Selection) (path : PathSegment)
    (resolver : RValue) (serially : Bool) :
    Bracketed (execSelectionsF selSet cfg ctx sels path resolver serially).events := by
  unfold execSelectionsF
  refine Bracketed.other _ _ ?_ (bracketed_flatten _ ?_)
  · intro n
    split <;> exact fun hc => Event.noConfusion hc
  · intro x hx
    rcases List.mem_map.mp hx with ⟨eo, heo, rfl⟩
    exact bracketed_execFieldsF selSet h cfg ctx _ path eo heo

theorem bracketed_execListElemsF (selSet : SelSetFn)
    (h : ∀ cfg ctx sels typ path r, Bracketed (selSet cfg ctx sels typ path r).events)
    (cfg : ReqCfg) (ctx : Ctx) (sels : List Selection) (ofType : GType)
    (path : PathSegment) (async : Bool) :
    ∀ (elems : List RValue) (i : Nat),
      ∀ eo ∈ execListElemsF selSet cfg ctx sels ofType path async i elems,
        Bracketed eo.events := by
  intro elems
  induction elems with
  | nil => intro i eo he; simp [execListElemsF] at he
  | cons v rest ih =>
    intro i eo he
    rw [execListElemsF] at he
    rcases List.mem_cons.mp he with h1 | h2
    · rw [h1]
      cases async with
      | false => exact h cfg ctx sels ofType _ v
      | true =>
          exact Bracketed.other _ _ (fun _ hc => Event.noConfusion hc)
            (bracketed_append _ _ (h cfg ctx sels ofType _ v)
              (Bracketed.other _ _ (fun _ hc => Event.noConfusion hc) Bracketed.nil))
    · exact ih (i + 1) eo h2

theorem bracketed_execListF (selSet : SelSetFn)
    (h : ∀ cfg ctx sels typ path r, Bracketed (selSet cfg ctx sels typ path r).events)
    (cfg : ReqCfg) (ctx : Ctx) (sels : List Selection) (ofType : GType)
    (path : PathSegment) (resolver : RValue) :
    Bracketed (execListF selSet cfg ctx sels ofType path resolver).events := by
  unfold execListF
  cases resolver with
  | listv elems =>
      refine bracketed_append _ _ (bracketed_flatten _ ?_) (bracketed_nonCalls _ ?_)
      · intro x hx
        rcases List.mem_map.mp hx with ⟨eo, heo, rfl⟩
        exact bracketed_execListElemsF selSet h cfg ctx sels ofType path _ elems 0 eo heo
      · intro e he n
        cases hs : HasAsyncSel sels with
        | true =>
            rw [hs] at he
            simp only [if_true] at he
            rcases List.mem_map.mp he with ⟨_, _, rfl⟩
            exact fun hc => Event.noConfusion hc
        | false =>
            rw [hs] at he
            simp at he
  | nilv => exact Bracketed.nil
  | scalarJSON s => exact Bracketed.nil
  | enumName s => exact Bracketed.nil
  | obj fields asserts => exact Bracketed.nil

/-- The bracketing invariant holds at every recursion depth. -/
theorem bracketed_execSelectionSet :
    ∀ (fuel : Nat) (cfg : ReqCfg) (ctx : Ctx) (sels : List Selection) (typ : GType)
      (path : PathSegment) (resolver : RValue),
      Bracketed (execSelectionSet fuel cfg ctx sels typ path resolver).events := by
  intro fuel
  induction fuel with
  | zero => intro cfg ctx sels typ path resolver; exact Bracketed.nil
  | succ n ih =>
    intro cfg ctx sels typ path resolver
    simp only [execSelectionSet]
    split
    · exact Bracketed.nil
    · split
      · exact bracketed_execSelectionsF _ ih cfg ctx sels path resolver false
      · exact bracketed_execListF _ ih cfg ctx sels _ path resolver
      · exact Bracketed.nil
      · split
        · exact Bracketed.nil
        · exact Bracketed.nil
      · exact Bracketed.nil

/-- C7 counterexample: executing an asynchronous list selection performs
operations on the fresh per-list channel allocated inside execList (exec.go
line 363), so list-element execution is not gated by the single request
limiter. -/
def selC7 : Selection :=
  Selection.field "items" "items" [] (GType.list (GType.object "Item")) false none
    [Selection.field "x" "x" [] (GType.scalar "Int") true none []]

/-- Resolver returning a one-element list of objects. -/
def resC7 : RValue :=
  RValue.obj
    [("items", fun _ => ROut.ok (RValue.listv
      [RValue.obj [("x", fun _ => ROut.ok (RValue.scalarJSON "1"))] []]))] []

/-- C7 counterexample: the trace of a concrete asynchronous list execution
contains an acquire of the per-list channel, refuting that one shared
semaphore gates both sibling-field resolution and list-element execution. -/
theorem c7_single_semaphore_counterexample :
    ¬ usesOnlyRequestLimiter
      (execSelections 5 cfg0 ctx0 [selC7] PathSegment.nil resC7 false).events := by
  intro h
  exact (h (Event.listSemAcquire [PathElem.fieldAlias "items"]) (by decide)
    [PathElem.fieldAlias "items"]).1 rfl

/-- C7 amended: every resolver invocation window is bracketed by the single
request limiter (so the per-request bound on simultaneous resolver
invocations holds, the channel semantics never letting the held count exceed
the capacity), while list-element spawning is additionally gated by a fresh
per-list channel of the same capacity rather than by the shared limiter. -/
theorem c7_limiter_amended :
    (∀ (fuel : Nat) (cfg : ReqCfg) (ctx : Ctx) (sels : List Selection) (path : PathSegment)
       (resolver : RValue) (serially : Bool),
       Bracketed (execSelections fuel cfg ctx sels path resolver serially).events) ∧
    (∀ (cap k : Nat), Relation.ReflTransGen (LimiterStep cap) 0 k → k ≤ cap) := by
  constructor
  · intro fuel cfg ctx sels path resolver serially
    exact bracketed_execSelectionsF _
      (fun cfg2 ctx2 sels2 typ2 path2 r2 =>
        bracketed_execSelectionSet fuel cfg2 ctx2 sels2 typ2 path2 r2)
      cfg ctx sels path resolver serially
  · intro cap k h
    induction h with
    | refl => omega
    | tail _ hstep ih =>
      cases hstep with
      | acquire k2 hk2 => omega
      | release k2 => omega

/-- Witness for c7_limiter_amended: the bracketing of a concrete execution
and the bound after one acquire on a limiter of capacity 2. -/
theorem c7_limiter_amended_witness :
    Bracketed (execSelections 5 cfg0 ctx0 [selC7] PathSegment.nil resC7 false).events ∧
    1 ≤ 2 := by
  refine ⟨c7_limiter_amended.1 5 cfg0 ctx0 [selC7] PathSegment.nil resC7 false, ?_⟩
  exact c7_limiter_amended.2 2 1
    (Relation.ReflTransGen.single (LimiterStep.acquire 0 (by omega)))

/- ===================  C9: determinism of pure executions  =================== -/

/-- Resolver whose two type assertions both match. -/
def resC9 : RValue := RValue.obj [] [("A", (true, RValue.nilv)), ("B", (true, RValue.nilv))]

/-- C9 counterexample: the type assertions of a __typename field live in a Go
map, so two executions of the identical query may iterate them in different
orders (here the two permutations of the same assertion set); with two
matching assertions the two runs emit different bytes for data, refuting
byte-equality of identical pure executions. -/
theorem c9_pure_determinism_counterexample :
    List.Perm ["A", "B"] ["B", "A"] ∧
    (execSelections 3 cfg0 ctx0 [Selection.typename "t" "X" ["A", "B"]]
        PathSegment.nil resC9 false).out ≠
      (execSelections 3 cfg0 ctx0 [Selection.typename "t" "X" ["B", "A"]]
        PathSegment.nil resC9 false).out := by
  exact ⟨List.Perm.swap "B" "A" [], by decide⟩

/-- C9 amended: the concrete type name chosen by typeOf is independent of the
map iteration order precisely under mutual exclusivity: when at most one type
assertion matches the resolver, any two iteration orders of the same
assertion set produce the same name (and hence byte-equal serialized data for
the __typename field); with several matching assertions the choice depends on
the iteration order, as the counterexample shows. -/
theorem c9_pure_determinism_amended (tfName : String) (r : RValue) (l1 l2 : List String)
    (hperm : List.Perm l1 l2)
    (hexcl : ∀ a ∈ l1, ∀ b ∈ l1,
      assertMatches r a = true → assertMatches r b = true → a = b) :
    typeOf tfName l1 r = typeOf tfName l2 r := by
  unfold typeOf
  by_cases h1 : l1.isEmpty
  · have h1e : l1 = [] := List.isEmpty_iff.mp h1
    have h2e : l2 = [] := List.eq_nil_of_length_eq_zero
      (by rw [← hperm.length_eq, h1e]; rfl)
    rw [if_pos h1, if_pos (by rw [h2e]; rfl)]
  · have h2 : ¬ l2.isEmpty := by
      intro c
      have h2e : l2 = [] := List.isEmpty_iff.mp c
      have : l1 = [] := List.eq_nil_of_length_eq_zero
        (by rw [hperm.length_eq, h2e]; rfl)
      exact h1 (by rw [this]; rfl)
    rw [if_neg h1, if_neg h2]
    cases hf : l1.find? (fun n => assertMatches r n) with
    | none =>
        have hnone : l2.find? (fun n => assertMatches r n) = none := by
          rw [List.find?_eq_none] at hf ⊢
          intro x hx
          exact hf x (hperm.mem_iff.mpr hx)
        rw [hnone]
    | some a =>
        have hpa : assertMatches r a = true := by
          have := List.find?_some hf
          simpa using this
        have hma : a ∈ l1 := List.mem_of_find?_eq_some hf
        cases hf2 : l2.find? (fun n => assertMatches r n) with
        | none =>
            rw [List.find?_eq_none] at hf2
            exact absurd hpa (by simpa using hf2 a (hperm.mem_iff.mp hma))
        | some b =>
            have hpb : assertMatches r b = true := by
              have := List.find?_some hf2
              simpa using this
            have hmb : b ∈ l2 := List.mem_of_find?_eq_some hf2
            exact hexcl a hma b (hperm.mem_iff.mpr hmb) hpa hpb

/-- Resolver with mutually exclusive type assertions: only B matches. -/
def resC9excl : RValue := RValue.obj [] [("A", (false, RValue.nilv)), ("B", (true, RValue.nilv))]

/-- Witness for c9_pure_determinism_amended: with mutually exclusive
assertions the chosen name is the same for both iteration orders. -/
theorem c9_pure_determinism_amended_witness :
    List.Perm ["A", "B"] ["B", "A"] ∧
    typeOf "X" ["A", "B"] resC9excl = typeOf "X" ["B", "A"] resC9excl ∧
    typeOf "X" ["A", "B"] resC9excl = "B" := by
  refine ⟨List.Perm.swap "B" "A" [], ?_, by decide⟩
  exact c9_pure_determinism_amended "X" resC9excl ["A", "B"] ["B", "A"]
    (List.Perm.swap "B" "A" []) (by decide)

end GqlExec
